import Mathlib

/-
Verification of the document-processing pipeline in `case_assignment_v2.py`.

Modelling conventions (shallow embedding):
* Python strings are `List Char`; the model restricts whitespace to the six
  ASCII whitespace characters recognised by both `str.split`/`str.strip`
  and the regex class used by the code.
* Python float arithmetic on the small quantities computed by the program
  (`avg_words`, `length_threshold`) is modelled by exact rational
  arithmetic on `ℚ`; `int(x)` is truncation toward zero.
* The `while start < len(words)` loop of `split_into_paragraphs` is given
  an explicit fuel budget of `len(words)` loop-body executions and yields
  `none` when the fuel is exhausted; `none` therefore models the loop
  failing to terminate within that budget (which is shown impossible).
* The classification service is an oracle `Nat → List Char → Option (List Char)`
  giving, for each successive call index, either the raw response text or
  a failure (any raised exception); `main` is a pure function of an
  environment recording the extraction result, the oracle, and whether
  the CSV write succeeds.
-/

namespace CaseAssignment

/-- Whitespace characters: the ASCII characters matched by Python's
`str.split()`, `str.strip()` and the regex class `\s`. -/
def isPySpace (c : Char) : Bool :=
  c == ' ' || c == '\t' || c == '\n' || c == '\r' || c == '\x0b' || c == '\x0c'

/-- Python `s.strip()`: drop leading and trailing whitespace. -/
def pystrip (l : List Char) : List Char :=
  ((l.dropWhile isPySpace).reverse.dropWhile isPySpace).reverse

/-- Worker for `pysplit`: scans the characters, building the current word
in `acc` (reversed); whitespace flushes the word.  This is Python
`s.split()` with no argument (split on whitespace runs, no empty words). -/
def pysplitAux : List Char → List Char → List (List Char)
  | [], acc => if acc = [] then [] else [acc.reverse]
  | c :: t, acc =>
    if isPySpace c then
      if acc = [] then pysplitAux t [] else acc.reverse :: pysplitAux t []
    else
      pysplitAux t (c :: acc)

/-- Python `s.split()` with no argument. -/
def pysplit (l : List Char) : List (List Char) :=
  pysplitAux l []

/-- Python `" ".join(ws)`. -/
def joinWords : List (List Char) → List Char
  | [] => []
  | [w] => w
  | w :: w2 :: ws => w ++ ' ' :: joinWords (w2 :: ws)

/-- Index of the last newline character of a list, if any. -/
def lastNlIdx : List Char → Option Nat
  | [] => none
  | c :: t =>
    match lastNlIdx t with
    | some k => some (k + 1)
    | none => if c = '\n' then some 0 else none

/-- Worker for `reSplit`, scanning for matches of the regex `\n\s*\n`.
A match starting at a newline consumes that newline, then (greedy `\s*`
with backtracking) everything up to and including the LAST newline of the
maximal whitespace run that follows.  `acc` holds the current piece
(reversed).  `fuel` bounds the recursion; every step consumes at least one
character, so `fuel = text.length` never runs out (the fallback arm is
unreachable because the empty list is matched first). -/
def reSplitFuel : Nat → List Char → List Char → List (List Char)
  | _, [], acc => [acc.reverse]
  | 0, rest, acc => [acc.reverse ++ rest]
  | fuel + 1, c :: t, acc =>
    if c = '\n' then
      match lastNlIdx (t.takeWhile isPySpace) with
      | some k => acc.reverse :: reSplitFuel fuel (t.drop (k + 1)) []
      | none => reSplitFuel fuel t (c :: acc)
    else
      reSplitFuel fuel t (c :: acc)

/-- Python `re.split(r'\n\s*\n', text)`. -/
def reSplit (text : List Char) : List (List Char) :=
  reSplitFuel text.length text []

/-- Step A of `split_into_paragraphs` (line 47):
`[p.strip() for p in re.split(r'\n\s*\n', text) if p.strip()]`. -/
def stepA (text : List Char) : List (List Char) :=
  ((reSplit text).map pystrip).filter (fun p => !p.isEmpty)

/-- Word count of a paragraph: `len(p.split())`. -/
def wordCount (p : List Char) : Nat :=
  (pysplit p).length

/-- Line 51: `total_words = sum(len(p.split()) for p in paragraphs)`. -/
def totalWords (text : List Char) : Nat :=
  (((stepA text).map wordCount)).sum

/-- Line 56: `avg_words = total_words / num_paragraphs if num_paragraphs > 0 else 0`,
with Python float division modelled exactly on `ℚ`. -/
def avgWords (text : List Char) : ℚ :=
  if 0 < (stepA text).length then
    (totalWords text : ℚ) / ((stepA text).length : ℚ)
  else 0

/-- Line 61: `length_threshold = avg_words + ((avg_words * 20) / 100)`. -/
def lengthThreshold (text : List Char) : ℚ :=
  avgWords text + ((avgWords text * 20) / 100)

/-- Python `int(q)`: truncation toward zero. -/
def pyInt (q : ℚ) : Int :=
  if 0 ≤ q then Rat.floor q else -(Rat.floor (-q))

/-- The window size `int(avg_words)` used in lines 74-75.  `avg_words` is
never negative, so reading the Python int as a natural number is exact. -/
def windowSize (text : List Char) : Nat :=
  (pyInt (avgWords text)).toNat

/-- Lines 72-75, the re-chunking loop
`while start < len(words): append(" ".join(words[start:start+k])); start += k`,
with an explicit budget of loop-body executions; `none` models exceeding
the budget (for `fuel = len words` that is exactly the zero-window-size
infinite loop). -/
def windowLoopFuel (k : Nat) (ws : List (List Char)) :
    Nat → Nat → List (List Char) → Option (List (List Char))
  | fuel, start, acc =>
    if start < ws.length then
      match fuel with
      | 0 => none
      | fuel + 1 =>
        windowLoopFuel k ws fuel (start + k) (acc ++ [joinWords ((ws.drop start).take k)])
    else some acc

/-- Lines 67-78: the body of the `for paragraph in paragraphs` loop, giving
the entries this paragraph contributes to `adjusted_paragraphs`. -/
def adjustParagraph (thr : ℚ) (k : Nat) (p : List Char) : Option (List (List Char)) :=
  if thr < (wordCount p : ℚ) then
    windowLoopFuel k (pysplit p) (pysplit p).length 0 []
  else some [p]

/-- Lines 65-78: the whole `for` loop, appending each paragraph's
contribution in order. -/
def adjustLoop (thr : ℚ) (k : Nat) : List (List Char) → Option (List (List Char))
  | [] => some []
  | p :: ps =>
    match adjustParagraph thr k p, adjustLoop thr k ps with
    | some cs, some rest => some (cs ++ rest)
    | _, _ => none

/-- The Segmenter, `split_into_paragraphs` (lines 36-80). -/
def split_into_paragraphs (text : List Char) : Option (List (List Char)) :=
  adjustLoop (lengthThreshold text) (windowSize text) (stepA text)

/-- Specification-side windowing (from the spec's words, for comparison
with the code): consecutive windows of `k` words, last possibly shorter. -/
def specWindows (k : Nat) (l : List (List Char)) : List (List (List Char)) :=
  if h : l = [] ∨ k = 0 then [] else l.take k :: specWindows k (l.drop k)
termination_by l.length
decreasing_by
  simp only [List.length_drop]
  rcases l with _ | ⟨a, t⟩
  · exact absurd (Or.inl rfl) h
  · rcases Nat.eq_zero_or_pos k with hk | hk
    · exact absurd (Or.inr hk) h
    · simp only [List.length_cons]
      omega

/-- The sentinel label appended on a failed classification call (line 113). -/
def errorLabel : List Char :=
  ("Error").toList

/-- Lines 93-114: what one iteration appends to `topics`, given the
outcome of the service call: the response content stripped of surrounding
whitespace on success, the sentinel on any exception. -/
def labelOf : Option (List Char) → List Char
  | some resp => pystrip resp
  | none => errorLabel

/-- The Classifier, `classify_paragraphs` (lines 82-115).  The service is
an oracle from the index of the call (the calls are issued strictly
sequentially) and the chunk text to the optional response. -/
def classify_paragraphs (svc : Nat → List Char → Option (List Char)) :
    Nat → List (List Char) → List (List Char)
  | _, [] => []
  | i, p :: ps => labelOf (svc i p) :: classify_paragraphs svc (i + 1) ps

/-- Environment of one run of `main`: the extraction outcome (`none` models
`read_pdf` raising), the classification oracle, and whether `df.to_csv`
succeeds. -/
structure Env where
  extracted : Option (List Char)
  svc : Nat → List Char → Option (List Char)
  writeOk : Bool

/-- Observable outcome of `main` (lines 117-151).
`extractionFailure`: the `except` of lines 125-128 prints a diagnostic and
returns; `emptyInput`: lines 132-134 print a notice and return;
`diverged`: `split_into_paragraphs` never returns;
`uncaughtException`: `pd.DataFrame` raises on column length mismatch;
`wrote rows`: the CSV with the given rows is written;
`writeFailed rows`: `to_csv` raised, lines 150-151 print a diagnostic. -/
inductive RunResult where
  | extractionFailure : RunResult
  | emptyInput : RunResult
  | diverged : RunResult
  | uncaughtException : RunResult
  | wrote : List (List Char × List Char) → RunResult
  | writeFailed : List (List Char × List Char) → RunResult
deriving DecidableEq

/-- The `main` function (lines 117-151) as a pure function of the run
environment. -/
def main (env : Env) : RunResult :=
  match env.extracted with
  | none => RunResult.extractionFailure
  | some text =>
    match split_into_paragraphs text with
    | none => RunResult.diverged
    | some paragraphs =>
      if paragraphs.isEmpty then RunResult.emptyInput
      else
        let topics := classify_paragraphs env.svc 0 paragraphs
        if paragraphs.length ≠ topics.length then RunResult.uncaughtException
        else if env.writeOk then RunResult.wrote (paragraphs.zip topics)
        else RunResult.writeFailed (paragraphs.zip topics)

/-- Process exit status implied by a run outcome: `main` returns normally
on every path (no `sys.exit`, every exception in it is caught), so the
interpreter exits 0 unless an exception escapes (`pd.DataFrame`), and a
diverging run never exits. -/
def pyExitCode : RunResult → Option Nat
  | RunResult.diverged => none
  | RunResult.uncaughtException => some 1
  | _ => some 0

/-- The worked example text of the specification. -/
def exText : List Char :=
  ("Short one.\n\nShort two.\n\nThis is a much longer paragraph with many many more words than the others combined here.").toList

/-- First paragraph of the example. -/
def exP1 : List Char :=
  ("Short one.").toList

/-- Third (long) paragraph of the example. -/
def exP3 : List Char :=
  ("This is a much longer paragraph with many many more words than the others combined here.").toList

/-- The chunks the code produces from the long example paragraph. -/
def exChunks : List (List Char) :=
  [("This is a much longer paragraph").toList,
   ("with many many more words than").toList,
   ("the others combined here.").toList]

/-- Environment whose extraction fails. -/
def envFail : Env :=
  { extracted := none, svc := fun _ _ => none, writeOk := true }

/-- Environment extracting whitespace-only text. -/
def envBlank : Env :=
  { extracted := some ((" \n \n  ").toList), svc := fun _ _ => none, writeOk := true }

/-- Environment extracting the example text but failing to write. -/
def envNoWrite : Env :=
  { extracted := some exText, svc := fun _ _ => none, writeOk := false }

/-- Second paragraph of the example. -/
def exP2 : List Char :=
  ("Short two.").toList

/-- A service that answers the first call and fails afterwards. -/
def svcOne : Nat → List Char → Option (List Char) :=
  fun i _ => if i = 0 then some ((" Sports ").toList) else none

/-- A service whose every call fails. -/
def svcNone : Nat → List Char → Option (List Char) :=
  fun _ _ => none

/-- A two-chunk input for exercising the Classifier. -/
def psTwo : List (List Char) :=
  [("alpha").toList, ("beta").toList]

end CaseAssignment

namespace CaseAssignment

/-- A nonempty word accumulator guarantees a nonempty split result. -/
theorem pysplitAux_ne_nil_of_acc :
    ∀ (l acc : List Char), acc ≠ [] → pysplitAux l acc ≠ [] := by
  intro l
  induction l with
  | nil =>
    intro acc h
    simp [pysplitAux, h]
  | cons c t ih =>
    intro acc h
    simp only [pysplitAux]
    by_cases hc : isPySpace c
    · simp [hc, h]
    · simp only [hc, if_false]
      exact ih (c :: acc) (by simp)

/-- A non-whitespace character somewhere in the input guarantees a nonempty
split result. -/
theorem pysplitAux_ne_nil_of_mem :
    ∀ (l acc : List Char) (c : Char), c ∈ l → isPySpace c = false →
      pysplitAux l acc ≠ [] := by
  intro l
  induction l with
  | nil => intro acc c hc; simp at hc
  | cons a t ih =>
    intro acc c hc hsp
    simp only [pysplitAux]
    by_cases ha : isPySpace a = true
    · rw [if_pos ha]
      rcases List.mem_cons.mp hc with rfl | hct
      · rw [ha] at hsp; cases hsp
      · by_cases hacc : acc = []
        · rw [if_pos hacc]
          exact ih [] c hct hsp
        · rw [if_neg hacc]
          simp
    · rw [if_neg ha]
      exact pysplitAux_ne_nil_of_acc t (a :: acc) (by simp)

/-- The first element surviving `dropWhile` falsifies the predicate. -/
theorem dropWhile_head_eq_false {α : Type} (p : α → Bool) :
    ∀ (l : List α) (c : α) (t : List α), List.dropWhile p l = c :: t → p c = false := by
  intro l
  induction l with
  | nil => intro c t h; simp [List.dropWhile] at h
  | cons a l' ih =>
    intro c t h
    rw [List.dropWhile_cons] at h
    by_cases ha : p a
    · rw [if_pos ha] at h
      exact ih c t h
    · rw [if_neg ha] at h
      cases h
      exact Bool.of_not_eq_true ha

/-- A nonempty stripped string contains a non-whitespace character. -/
theorem exists_nonspace_of_pystrip_ne_nil (q : List Char) (h : pystrip q ≠ []) :
    ∃ c ∈ pystrip q, isPySpace c = false := by
  rcases hBcons : (q.dropWhile isPySpace).reverse.dropWhile isPySpace with _ | ⟨c, t⟩
  · exfalso
    apply h
    unfold pystrip
    rw [hBcons]
    rfl
  · refine ⟨c, ?_, dropWhile_head_eq_false isPySpace _ c t hBcons⟩
    unfold pystrip
    rw [hBcons]
    exact List.mem_reverse.mpr (List.mem_cons_self c t)

/-- Every paragraph retained by Step A contains at least one word. -/
theorem stepA_wordCount_pos {text p : List Char} (hp : p ∈ stepA text) :
    1 ≤ wordCount p := by
  unfold stepA at hp
  have hfil := List.mem_filter.mp hp
  obtain ⟨q, _, hq⟩ := List.mem_map.mp hfil.1
  have hne : p ≠ [] := by
    intro hnil
    rw [hnil] at hfil
    simp at hfil
  obtain ⟨c, hcmem, hcsp⟩ := exists_nonspace_of_pystrip_ne_nil q (hq ▸ hne)
  have : pysplit p ≠ [] := by
    rw [← hq]
    exact pysplitAux_ne_nil_of_mem _ [] c hcmem hcsp
  have := List.length_pos.mpr this
  unfold wordCount
  omega

end CaseAssignment

namespace CaseAssignment

/-- Every word produced by the splitter is nonempty and whitespace-free,
provided the pending accumulator is whitespace-free. -/
theorem pysplitAux_valid :
    ∀ (l acc : List Char), (∀ c ∈ acc, isPySpace c = false) →
      ∀ w ∈ pysplitAux l acc, w ≠ [] ∧ ∀ c ∈ w, isPySpace c = false := by
  intro l
  induction l with
  | nil =>
    intro acc hacc w hw
    simp only [pysplitAux] at hw
    by_cases h : acc = []
    · rw [if_pos h] at hw
      simp at hw
    · rw [if_neg h] at hw
      rcases List.mem_singleton.mp hw with rfl
      refine ⟨by simpa using h, ?_⟩
      intro c hc
      exact hacc c (List.mem_reverse.mp hc)
  | cons a t ih =>
    intro acc hacc w hw
    simp only [pysplitAux] at hw
    by_cases ha : isPySpace a = true
    · rw [if_pos ha] at hw
      by_cases h : acc = []
      · rw [if_pos h] at hw
        exact ih [] (by simp) w hw
      · rw [if_neg h] at hw
        rcases List.mem_cons.mp hw with rfl | hw'
        · refine ⟨by simpa using h, ?_⟩
          intro c hc
          exact hacc c (List.mem_reverse.mp hc)
        · exact ih [] (by simp) w hw'
    · rw [if_neg ha] at hw
      refine ih (a :: acc) ?_ w hw
      intro c hc
      rcases List.mem_cons.mp hc with rfl | hc'
      · exact Bool.of_not_eq_true ha
      · exact hacc c hc'

/-- Every word in the result of `pysplit` is nonempty and whitespace-free. -/
theorem pysplit_valid (l : List Char) :
    ∀ w ∈ pysplit l, w ≠ [] ∧ ∀ c ∈ w, isPySpace c = false :=
  pysplitAux_valid l [] (by simp)

/-- Scanning a whitespace-free word just extends the accumulator. -/
theorem pysplitAux_append_word :
    ∀ (w l acc : List Char), (∀ c ∈ w, isPySpace c = false) →
      pysplitAux (w ++ l) acc = pysplitAux l (w.reverse ++ acc) := by
  intro w
  induction w with
  | nil => intro l acc _; simp
  | cons c w' ih =>
    intro l acc hw
    have hc : isPySpace c = false := hw c (List.mem_cons_self c w')
    show pysplitAux (c :: (w' ++ l)) acc = pysplitAux l ((c :: w').reverse ++ acc)
    simp only [pysplitAux]
    rw [if_neg (by simp [hc])]
    rw [ih l (c :: acc) (fun d hd => hw d (List.mem_cons_of_mem c hd))]
    simp

/-- Splitting `" ".join ws` recovers `ws` when every word is nonempty and
whitespace-free: the word-level round-trip law for the chunk texts. -/
theorem pysplit_joinWords :
    ∀ ws : List (List Char), (∀ w ∈ ws, w ≠ [] ∧ ∀ c ∈ w, isPySpace c = false) →
      pysplit (joinWords ws) = ws := by
  intro ws
  induction ws with
  | nil => intro _; rfl
  | cons w ws' ih =>
    intro hval
    have hw := hval w (List.mem_cons_self w ws')
    rcases ws' with _ | ⟨w2, ws''⟩
    · show pysplit (joinWords [w]) = [w]
      unfold joinWords pysplit
      rw [show w = w ++ [] from (List.append_nil w).symm]
      rw [pysplitAux_append_word w [] [] (by simpa using hw.2)]
      simp only [pysplitAux, List.append_nil]
      rw [if_neg (by simp [hw.1])]
      simp
    · show pysplit (joinWords (w :: w2 :: ws'')) = w :: w2 :: ws''
      have hjw : joinWords (w :: w2 :: ws'') = w ++ ' ' :: joinWords (w2 :: ws'') := rfl
      unfold pysplit
      rw [hjw, pysplitAux_append_word w _ [] hw.2]
      simp only [pysplitAux]
      rw [if_pos (by decide)]
      rw [if_neg (by simp [hw.1])]
      have := ih (fun v hv => hval v (List.mem_cons_of_mem w hv))
      unfold pysplit at this
      rw [this]
      simp

end CaseAssignment

namespace CaseAssignment

/-- The average word count is never negative. -/
theorem avgWords_nonneg (text : List Char) : 0 ≤ avgWords text := by
  unfold avgWords
  split
  · exact div_nonneg (Nat.cast_nonneg _) (Nat.cast_nonneg _)
  · exact le_refl 0

/-- The length threshold is never negative. -/
theorem lengthThreshold_nonneg (text : List Char) : 0 ≤ lengthThreshold text := by
  have h := avgWords_nonneg text
  unfold lengthThreshold
  have h20 : 0 ≤ avgWords text * 20 / 100 :=
    div_nonneg (mul_nonneg h (by norm_num)) (by norm_num)
  linarith

/-- A list whose entries are all at least one sums to at least its length. -/
theorem length_le_sum_map {α : Type} (f : α → Nat) :
    ∀ ps : List α, (∀ p ∈ ps, 1 ≤ f p) → ps.length ≤ (ps.map f).sum := by
  intro ps
  induction ps with
  | nil => intro _; simp
  | cons p ps ih =>
    intro h
    have h1 : 1 ≤ f p := h p (List.mem_cons_self p ps)
    have h2 := ih (fun q hq => h q (List.mem_cons_of_mem p hq))
    simp only [List.length_cons, List.map_cons, List.sum_cons]
    omega

/-- With at least one paragraph, every paragraph having at least one word
forces the average to be at least one. -/
theorem one_le_avgWords {text : List Char} (h : stepA text ≠ []) :
    1 ≤ avgWords text := by
  have hlen : 0 < (stepA text).length := List.length_pos.mpr h
  have htot : (stepA text).length ≤ totalWords text :=
    length_le_sum_map wordCount (stepA text) (fun p hp => stepA_wordCount_pos hp)
  unfold avgWords
  rw [if_pos hlen]
  rw [one_le_div (by exact_mod_cast hlen)]
  exact_mod_cast htot

/-- `Rat.floor` agrees with the floor of the ordered field. -/
theorem ratFloor_eq_intFloor (q : ℚ) : Rat.floor q = ⌊q⌋ :=
  (Rat.floor_def' q).trans Rat.floor_def.symm

/-- With at least one paragraph the truncated window size is at least one:
the zero-width-window infinite loop is unreachable. -/
theorem one_le_windowSize {text : List Char} (h : stepA text ≠ []) :
    1 ≤ windowSize text := by
  have havg := one_le_avgWords h
  have h0 : (0 : ℚ) ≤ avgWords text := le_trans (by norm_num) havg
  unfold windowSize pyInt
  rw [if_pos h0, ratFloor_eq_intFloor]
  have : (1 : Int) ≤ ⌊avgWords text⌋ := Int.le_floor.mpr (by exact_mod_cast havg)
  omega

end CaseAssignment

namespace CaseAssignment

/-- With a positive window size, `len words` loop executions always
suffice: the re-chunking loop terminates within its budget. -/
theorem windowLoopFuel_isSome {k : Nat} (ws : List (List Char)) (hk : 1 ≤ k) :
    ∀ (fuel start : Nat) (acc : List (List Char)),
      ws.length ≤ start + fuel → (windowLoopFuel k ws fuel start acc).isSome = true := by
  intro fuel
  induction fuel with
  | zero =>
    intro start acc h
    rw [windowLoopFuel, if_neg (by omega)]
    rfl
  | succ fuel ih =>
    intro start acc h
    rw [windowLoopFuel]
    by_cases hs : start < ws.length
    · rw [if_pos hs]
      exact ih (start + k) _ (by omega)
    · rw [if_neg hs]
      rfl

/-- What the loop computes, described by the spec-side windowing: the
produced entries are the joined consecutive windows of the remaining
words, in order. -/
theorem windowLoopFuel_eq_specWindows {k : Nat} (ws : List (List Char)) (hk : 1 ≤ k) :
    ∀ (fuel start : Nat) (acc res : List (List Char)),
      windowLoopFuel k ws fuel start acc = some res →
      res = acc ++ (specWindows k (ws.drop start)).map joinWords := by
  intro fuel
  induction fuel with
  | zero =>
    intro start acc res h
    rw [windowLoopFuel] at h
    by_cases hs : start < ws.length
    · rw [if_pos hs] at h
      cases h
    · rw [if_neg hs] at h
      cases h
      rw [List.drop_eq_nil_iff_le.mpr (by omega), specWindows]
      simp
  | succ fuel ih =>
    intro start acc res h
    rw [windowLoopFuel] at h
    by_cases hs : start < ws.length
    · rw [if_pos hs] at h
      have hrec := ih (start + k) _ res h
      have hdropne : ws.drop start ≠ [] := by
        intro hnil
        have := List.drop_eq_nil_iff_le.mp hnil
        omega
      have hunfold : specWindows k (ws.drop start)
          = (ws.drop start).take k :: specWindows k (ws.drop (start + k)) := by
        conv_lhs => rw [specWindows]
        rw [dif_neg (by push_neg; exact ⟨hdropne, by omega⟩)]
        rw [List.drop_drop]
      rw [hrec, hunfold]
      simp
    · rw [if_neg hs] at h
      cases h
      rw [List.drop_eq_nil_iff_le.mpr (by omega), specWindows]
      simp

/-- Word-level accounting of the loop: when the input words are all
nonempty and whitespace-free, re-splitting the produced chunks and
concatenating recovers exactly the remaining words.  This holds for every
window size, including zero. -/
theorem windowLoopFuel_roundtrip {k : Nat} (ws : List (List Char))
    (hval : ∀ w ∈ ws, w ≠ [] ∧ ∀ c ∈ w, isPySpace c = false) :
    ∀ (fuel start : Nat) (acc res : List (List Char)),
      windowLoopFuel k ws fuel start acc = some res →
      (res.map pysplit).flatten = ((acc.map pysplit)).flatten ++ ws.drop start := by
  intro fuel
  induction fuel with
  | zero =>
    intro start acc res h
    rw [windowLoopFuel] at h
    by_cases hs : start < ws.length
    · rw [if_pos hs] at h
      cases h
    · rw [if_neg hs] at h
      cases h
      rw [List.drop_eq_nil_iff_le.mpr (by omega)]
      simp
  | succ fuel ih =>
    intro start acc res h
    rw [windowLoopFuel] at h
    by_cases hs : start < ws.length
    · rw [if_pos hs] at h
      have hrec := ih (start + k) _ res h
      rw [hrec]
      have hslice : pysplit (joinWords ((ws.drop start).take k)) = (ws.drop start).take k := by
        apply pysplit_joinWords
        intro w hw
        exact hval w (List.drop_subset start ws (List.take_subset k _ hw))
      simp only [List.map_append, List.map_cons, List.map_nil, List.flatten_append,
        List.flatten_cons, List.flatten_nil, hslice]
      rw [List.append_assoc, List.append_nil]
      congr 1
      rw [← List.drop_drop, List.take_append_drop]
    · rw [if_neg hs] at h
      cases h
      rw [List.drop_eq_nil_iff_le.mpr (by omega)]
      simp

/-- The loop only ever appends entries, and appends at least one entry
whenever it starts inside the word list. -/
theorem windowLoopFuel_length {k : Nat} (ws : List (List Char)) :
    ∀ (fuel start : Nat) (acc res : List (List Char)),
      windowLoopFuel k ws fuel start acc = some res →
      acc.length ≤ res.length ∧ (start < ws.length → acc.length + 1 ≤ res.length) := by
  intro fuel
  induction fuel with
  | zero =>
    intro start acc res h
    rw [windowLoopFuel] at h
    by_cases hs : start < ws.length
    · rw [if_pos hs] at h
      cases h
    · rw [if_neg hs] at h
      cases h
      exact ⟨le_refl _, fun hlt => absurd hlt hs⟩
  | succ fuel ih =>
    intro start acc res h
    rw [windowLoopFuel] at h
    by_cases hs : start < ws.length
    · rw [if_pos hs] at h
      have hrec := (ih (start + k) _ res h).1
      simp only [List.length_append, List.length_cons, List.length_nil] at hrec
      exact ⟨by omega, fun _ => by omega⟩
    · rw [if_neg hs] at h
      cases h
      exact ⟨le_refl _, fun hlt => absurd hlt hs⟩

end CaseAssignment

namespace CaseAssignment

/-- The spec windows partition their input: concatenating them in order
restores the word list. -/
theorem specWindows_join {k : Nat} (hk : k ≠ 0) :
    ∀ (n : Nat) (l : List (List Char)), l.length ≤ n → (specWindows k l).flatten = l := by
  intro n
  induction n with
  | zero =>
    intro l hl
    have : l = [] := by cases l with
      | nil => rfl
      | cons a t => simp at hl
    subst this
    rw [specWindows]
    simp
  | succ n ih =>
    intro l hl
    by_cases h0 : l = []
    · subst h0
      rw [specWindows]
      simp
    · rw [specWindows, dif_neg (by push_neg; exact ⟨h0, hk⟩)]
      have hlt : (l.drop k).length ≤ n := by
        rw [List.length_drop]
        have : 0 < l.length := List.length_pos.mpr h0
        omega
      simp only [List.flatten_cons]
      rw [ih (l.drop k) hlt]
      exact List.take_append_drop k l

/-- Every spec window is nonempty with at most `k` words. -/
theorem specWindows_mem {k : Nat} (hk : k ≠ 0) :
    ∀ (n : Nat) (l : List (List Char)), l.length ≤ n →
      ∀ w ∈ specWindows k l, w.length ≤ k ∧ w ≠ [] := by
  intro n
  induction n with
  | zero =>
    intro l hl w hw
    have : l = [] := by cases l with
      | nil => rfl
      | cons a t => simp at hl
    subst this
    rw [specWindows] at hw
    simp at hw
  | succ n ih =>
    intro l hl w hw
    by_cases h0 : l = []
    · subst h0
      rw [specWindows] at hw
      simp at hw
    · rw [specWindows, dif_neg (by push_neg; exact ⟨h0, hk⟩)] at hw
      rcases List.mem_cons.mp hw with rfl | hw'
      · constructor
        · rw [List.length_take]
          omega
        · rw [Ne, List.take_eq_nil_iff]
          push_neg
          exact ⟨hk, h0⟩
      · have hlt : (l.drop k).length ≤ n := by
          rw [List.length_drop]
          have : 0 < l.length := List.length_pos.mpr h0
          omega
        exact ih (l.drop k) hlt w hw'

/-- Every spec window except possibly the last has exactly `k` words. -/
theorem specWindows_dropLast {k : Nat} (hk : k ≠ 0) :
    ∀ (n : Nat) (l : List (List Char)), l.length ≤ n →
      ∀ w ∈ (specWindows k l).dropLast, w.length = k := by
  intro n
  induction n with
  | zero =>
    intro l hl w hw
    have : l = [] := by cases l with
      | nil => rfl
      | cons a t => simp at hl
    subst this
    rw [specWindows] at hw
    simp at hw
  | succ n ih =>
    intro l hl w hw
    by_cases h0 : l = []
    · subst h0
      rw [specWindows] at hw
      simp at hw
    · rw [specWindows, dif_neg (by push_neg; exact ⟨h0, hk⟩)] at hw
      rcases hrest : specWindows k (l.drop k) with _ | ⟨r, rs⟩
      · rw [hrest] at hw
        simp at hw
      · rw [hrest, List.dropLast_cons₂] at hw
        rcases List.mem_cons.mp hw with rfl | hw'
        · have hdropne : l.drop k ≠ [] := by
            intro hnil
            rw [hnil, specWindows] at hrest
            simp at hrest
          have hklt : k < l.length := by
            by_contra hle
            push_neg at hle
            exact hdropne (List.drop_eq_nil_iff_le.mpr hle)
          rw [List.length_take]
          omega
        · have hlt : (l.drop k).length ≤ n := by
            rw [List.length_drop]
            have : 0 < l.length := List.length_pos.mpr h0
            omega
          have := ih (l.drop k) hlt w
          rw [hrest] at this
          exact this hw'

end CaseAssignment

namespace CaseAssignment

/-- A paragraph at or below the threshold is kept verbatim as a single
entry (lines 76-78). -/
theorem adjustParagraph_of_le {thr : ℚ} {k : Nat} {p : List Char}
    (h : (wordCount p : ℚ) ≤ thr) : adjustParagraph thr k p = some [p] := by
  unfold adjustParagraph
  rw [if_neg (not_lt.mpr h)]

/-- With a positive window size, every paragraph is processed within the
loop budget. -/
theorem adjustParagraph_isSome {thr : ℚ} {k : Nat} (hk : 1 ≤ k) (p : List Char) :
    (adjustParagraph thr k p).isSome = true := by
  unfold adjustParagraph
  split
  · exact windowLoopFuel_isSome (pysplit p) hk _ 0 [] (by omega)
  · rfl

/-- With a nonnegative threshold a processed paragraph contributes at
least one entry. -/
theorem adjustParagraph_length_pos {thr : ℚ} {k : Nat} {p : List Char}
    {cs : List (List Char)} (hthr : 0 ≤ thr) (h : adjustParagraph thr k p = some cs) :
    1 ≤ cs.length := by
  unfold adjustParagraph at h
  by_cases hlong : thr < (wordCount p : ℚ)
  · rw [if_pos hlong] at h
    have hwc : 0 < wordCount p := by
      by_contra h0
      push_neg at h0
      have hw0 : wordCount p = 0 := by omega
      rw [hw0] at hlong
      simp only [Nat.cast_zero] at hlong
      linarith
    have := (windowLoopFuel_length (pysplit p) _ 0 [] cs h).2
    simp only [List.length_nil] at this
    exact this hwc
  · rw [if_neg hlong] at h
    cases h
    simp

/-- The paragraph loop succeeds as soon as each iteration does. -/
theorem adjustLoop_isSome {thr : ℚ} {k : Nat} :
    ∀ ps : List (List Char), (∀ p ∈ ps, (adjustParagraph thr k p).isSome = true) →
      (adjustLoop thr k ps).isSome = true := by
  intro ps
  induction ps with
  | nil => intro _; rfl
  | cons p ps ih =>
    intro h
    have hp := h p (List.mem_cons_self p ps)
    have hps := ih (fun q hq => h q (List.mem_cons_of_mem p hq))
    unfold adjustLoop
    rcases h1 : adjustParagraph thr k p with _ | cs
    · rw [h1] at hp
      cases hp
    · rcases h2 : adjustLoop thr k ps with _ | rest
      · rw [h2] at hps
        cases hps
      · rfl

/-- Re-chunking never shrinks the sequence: with a nonnegative threshold
the output has at least one entry per input paragraph. -/
theorem adjustLoop_length {thr : ℚ} {k : Nat} (hthr : 0 ≤ thr) :
    ∀ (ps out : List (List Char)), adjustLoop thr k ps = some out →
      ps.length ≤ out.length := by
  intro ps
  induction ps with
  | nil => intro out h; cases h; simp
  | cons p ps ih =>
    intro out h
    unfold adjustLoop at h
    rcases h1 : adjustParagraph thr k p with _ | cs <;> rw [h1] at h
    · cases h
    · rcases h2 : adjustLoop thr k ps with _ | rest <;> rw [h2] at h
      · cases h
      · cases h
        have hcs := adjustParagraph_length_pos hthr h1
        have hrest := ih rest h2
        simp only [List.length_cons, List.length_append]
        omega

/-- Each input paragraph's contribution is embedded in the loop output. -/
theorem adjustLoop_mem {thr : ℚ} {k : Nat} :
    ∀ (ps out : List (List Char)), adjustLoop thr k ps = some out →
      ∀ p ∈ ps, ∃ cs, adjustParagraph thr k p = some cs ∧ ∀ c ∈ cs, c ∈ out := by
  intro ps
  induction ps with
  | nil => intro out _ p hp; simp at hp
  | cons q ps ih =>
    intro out h p hp
    unfold adjustLoop at h
    rcases h1 : adjustParagraph thr k q with _ | cs <;> rw [h1] at h
    · cases h
    · rcases h2 : adjustLoop thr k ps with _ | rest <;> rw [h2] at h
      · cases h
      · cases h
        rcases List.mem_cons.mp hp with rfl | hp'
        · exact ⟨cs, h1, fun c hc => List.mem_append.mpr (Or.inl hc)⟩
        · obtain ⟨ds, hds, hsub⟩ := ih rest h2 p hp'
          exact ⟨ds, hds, fun c hc => List.mem_append.mpr (Or.inr (hsub c hc))⟩

/-- The Segmenter always terminates and returns a value. -/
theorem split_into_paragraphs_isSome (text : List Char) :
    (split_into_paragraphs text).isSome = true := by
  unfold split_into_paragraphs
  by_cases h0 : stepA text = []
  · rw [h0]
    rfl
  · exact adjustLoop_isSome (stepA text)
      (fun p _ => adjustParagraph_isSome (one_le_windowSize h0) p)

/-- The Classifier produces exactly one label per chunk. -/
theorem classify_paragraphs_length (svc : Nat → List Char → Option (List Char)) :
    ∀ (ps : List (List Char)) (i : Nat), (classify_paragraphs svc i ps).length = ps.length := by
  intro ps
  induction ps with
  | nil => intro i; rfl
  | cons p ps ih =>
    intro i
    simp only [classify_paragraphs, List.length_cons, ih (i + 1)]

/-- The label at each position depends only on that position's service
call: per-chunk failures are contained. -/
theorem classify_paragraphs_get (svc : Nat → List Char → Option (List Char)) :
    ∀ (ps : List (List Char)) (i j : Nat) (hj : j < ps.length)
      (hj2 : j < (classify_paragraphs svc i ps).length),
      (classify_paragraphs svc i ps).get ⟨j, hj2⟩ = labelOf (svc (i + j) (ps.get ⟨j, hj⟩)) := by
  intro ps
  induction ps with
  | nil => intro i j hj _; simp at hj
  | cons p ps ih =>
    intro i j hj hj2
    cases j with
    | zero => simp [classify_paragraphs]
    | succ j =>
      have hj' : j < ps.length := by simpa using hj
      have hj2' : j < (classify_paragraphs svc (i + 1) ps).length := by
        rw [classify_paragraphs_length]
        exact hj'
      show (classify_paragraphs svc (i + 1) ps).get ⟨j, hj2'⟩ = _
      rw [ih (i + 1) j hj' hj2']
      have : i + 1 + j = i + (j + 1) := by omega
      rw [this]
      rfl

/-- When every call fails, every label is the sentinel. -/
theorem classify_paragraphs_all_error (svc : Nat → List Char → Option (List Char))
    (hsvc : ∀ n p, svc n p = none) :
    ∀ (ps : List (List Char)) (i : Nat),
      ∀ lab ∈ classify_paragraphs svc i ps, lab = errorLabel := by
  intro ps
  induction ps with
  | nil => intro i lab h; simp [classify_paragraphs] at h
  | cons p ps ih =>
    intro i lab h
    simp only [classify_paragraphs, hsvc] at h
    rcases List.mem_cons.mp h with rfl | h'
    · rfl
    · exact ih (i + 1) lab h'

/-- `main` returns normally on every environment: the process exit status
is always 0. -/
theorem main_exit_zero (env : Env) : pyExitCode (main env) = some 0 := by
  obtain ⟨ext, svc, wOk⟩ := env
  rcases ext with _ | text
  · rfl
  · rcases hsplit : split_into_paragraphs text with _ | paragraphs
    · exfalso
      have := split_into_paragraphs_isSome text
      rw [hsplit] at this
      cases this
    · by_cases hemp : paragraphs.isEmpty = true
      · simp only [main, hsplit, if_pos hemp]
        rfl
      · have hlen := classify_paragraphs_length svc paragraphs 0
        simp only [main, hsplit, if_neg hemp]
        rw [if_neg (by omega)]
        by_cases hw : wOk = true
        · rw [if_pos hw]
          rfl
        · rw [if_neg hw]
          rfl

end CaseAssignment

namespace CaseAssignment

/-- Step A on the worked example yields the three paragraphs. -/
theorem stepA_exText : stepA exText = [exP1, exP2, exP3] := by decide

/-- The example has 20 words in total. -/
theorem totalWords_exText : totalWords exText = 20 := by decide

/-- The example has three paragraphs. -/
theorem length_exText : (stepA exText).length = 3 := by decide

/-- Word counts of the example paragraphs. -/
theorem wordCount_exP1 : wordCount exP1 = 2 := by decide

/-- Word count of the second example paragraph. -/
theorem wordCount_exP2 : wordCount exP2 = 2 := by decide

/-- Word count of the long example paragraph. -/
theorem wordCount_exP3 : wordCount exP3 = 16 := by decide

/-- Average word count of the example: 20/3. -/
theorem avgWords_exText : avgWords exText = 20 / 3 := by
  unfold avgWords
  rw [totalWords_exText, length_exText]
  norm_num

/-- Length threshold of the example: exactly 8. -/
theorem lengthThreshold_exText : lengthThreshold exText = 8 := by
  unfold lengthThreshold
  rw [avgWords_exText]
  norm_num

/-- Window size of the example: 6. -/
theorem windowSize_exText : windowSize exText = 6 := by
  unfold windowSize pyInt
  rw [avgWords_exText, if_pos (by norm_num), ratFloor_eq_intFloor]
  have hf : ⌊(20 / 3 : ℚ)⌋ = 6 := Int.floor_eq_iff.mpr (by norm_num)
  rw [hf]
  rfl

/-- The first example paragraph is kept whole. -/
theorem adjustParagraph_exP1 : adjustParagraph 8 6 exP1 = some [exP1] := by
  unfold adjustParagraph
  rw [wordCount_exP1, if_neg (by norm_num)]

/-- The second example paragraph is kept whole. -/
theorem adjustParagraph_exP2 : adjustParagraph 8 6 exP2 = some [exP2] := by
  unfold adjustParagraph
  rw [wordCount_exP2, if_neg (by norm_num)]

/-- The long example paragraph is split into three windows of 6, 6 and 4
words. -/
theorem adjustParagraph_exP3 : adjustParagraph 8 6 exP3 = some exChunks := by
  unfold adjustParagraph
  rw [wordCount_exP3, if_pos (by norm_num)]
  decide

/-- The Segmenter output on the example: five entries. -/
theorem split_exText : split_into_paragraphs exText = some (exP1 :: exP2 :: exChunks) := by
  unfold split_into_paragraphs
  rw [lengthThreshold_exText, windowSize_exText, stepA_exText]
  simp only [adjustLoop, adjustParagraph_exP1, adjustParagraph_exP2, adjustParagraph_exP3]
  rfl

end CaseAssignment

namespace CaseAssignment

/-- C1: for every input text and every paragraph the Segmenter splits into
chunks (word count strictly greater than the length threshold),
concatenating the resulting chunks' word sequences in output order yields
exactly the original paragraph's word sequence: no word is lost,
duplicated, or reordered. -/
theorem spec_C1_split_roundtrip (text p : List Char) (chunks : List (List Char))
    (hp : p ∈ stepA text)
    (hlong : lengthThreshold text < (wordCount p : ℚ))
    (hc : adjustParagraph (lengthThreshold text) (windowSize text) p = some chunks) :
    (chunks.map pysplit).flatten = pysplit p := by
  unfold adjustParagraph at hc
  rw [if_pos hlong] at hc
  have h := windowLoopFuel_roundtrip (pysplit p) (pysplit_valid p) _ 0 [] chunks hc
  simpa using h

/-- Witness for C1 at the worked example's long paragraph. -/
theorem spec_C1_witness : (exChunks.map pysplit).flatten = pysplit exP3 :=
  spec_C1_split_roundtrip exText exP3 exChunks (by decide)
    (by rw [lengthThreshold_exText, wordCount_exP3]; norm_num)
    (by rw [lengthThreshold_exText, windowSize_exText]; exact adjustParagraph_exP3)

/-- C2 counterexample: on the spec's worked example the three paragraphs
have word counts 2, 2 and 16 — not the 2, 2 and 18 the claim asserts (the
long paragraph has 16 whitespace-delimited words). -/
theorem spec_C2_counterexample : ¬ ((stepA exText).map wordCount = [2, 2, 18]) := by
  decide

/-- C2 (amended): on the worked example the Segmenter finds three
paragraphs of word counts 2, 2 and 16, computes `avg_words = 20/3 ≈ 6.67`
and `threshold = 8`, splits the third paragraph into windows of
`floor(20/3) = 6` words (word counts 6, 6, 4), keeps paragraphs 1 and 2
whole, and returns an output sequence of length 5. -/
theorem spec_C2_amended :
    (stepA exText).map wordCount = [2, 2, 16]
    ∧ avgWords exText = 20 / 3
    ∧ lengthThreshold exText = 8
    ∧ windowSize exText = 6
    ∧ split_into_paragraphs exText = some (exP1 :: exP2 :: exChunks)
    ∧ exChunks.map wordCount = [6, 6, 4]
    ∧ (exP1 :: exP2 :: exChunks).length = 5 :=
  ⟨by decide, avgWords_exText, lengthThreshold_exText, windowSize_exText,
   split_exText, by decide, by decide⟩

/-- C3: a paragraph whose word count is at most the threshold (including
exact equality) is not split: it contributes itself, byte-for-byte, as
exactly one entry, and appears in the Segmenter output. -/
theorem spec_C3_short_kept (text p : List Char) (hp : p ∈ stepA text)
    (hshort : (wordCount p : ℚ) ≤ lengthThreshold text) :
    adjustParagraph (lengthThreshold text) (windowSize text) p = some [p]
    ∧ ∀ out, split_into_paragraphs text = some out → p ∈ out := by
  refine ⟨adjustParagraph_of_le hshort, ?_⟩
  intro out hout
  unfold split_into_paragraphs at hout
  obtain ⟨cs, hcs, hsub⟩ := adjustLoop_mem _ out hout p hp
  rw [adjustParagraph_of_le hshort] at hcs
  cases hcs
  exact hsub p (List.mem_singleton.mpr rfl)

/-- Witness for C3 at the worked example's first paragraph. -/
theorem spec_C3_witness :
    adjustParagraph (lengthThreshold exText) (windowSize exText) exP1 = some [exP1] :=
  (spec_C3_short_kept exText exP1 (by decide)
    (by rw [lengthThreshold_exText, wordCount_exP1]; norm_num)).1

/-- C4: a paragraph whose word count strictly exceeds the threshold is
replaced by the joined consecutive windows of `floor(avg_words)` of its
words, in original order; the windows partition the word sequence, all but
the last have exactly the window size, and every window is nonempty and at
most the window size. -/
theorem spec_C4_long_windows (text p : List Char) (hp : p ∈ stepA text)
    (hlong : lengthThreshold text < (wordCount p : ℚ)) :
    adjustParagraph (lengthThreshold text) (windowSize text) p
      = some ((specWindows (windowSize text) (pysplit p)).map joinWords)
    ∧ (specWindows (windowSize text) (pysplit p)).flatten = pysplit p
    ∧ (∀ w ∈ (specWindows (windowSize text) (pysplit p)).dropLast,
        w.length = windowSize text)
    ∧ (∀ w ∈ specWindows (windowSize text) (pysplit p),
        w.length ≤ windowSize text ∧ w ≠ []) := by
  have hk : 1 ≤ windowSize text := one_le_windowSize (List.ne_nil_of_mem hp)
  have hkne : windowSize text ≠ 0 := by omega
  refine ⟨?_, specWindows_join hkne (pysplit p).length _ (le_refl _),
    specWindows_dropLast hkne (pysplit p).length _ (le_refl _),
    specWindows_mem hkne (pysplit p).length _ (le_refl _)⟩
  unfold adjustParagraph
  rw [if_pos hlong]
  obtain ⟨cs, hcs⟩ := Option.isSome_iff_exists.mp
    (windowLoopFuel_isSome (pysplit p) hk (pysplit p).length 0 [] (by omega))
  rw [hcs]
  have h := windowLoopFuel_eq_specWindows (pysplit p) hk _ 0 [] cs hcs
  rw [h]
  simp

/-- Witness for C4 at the worked example's long paragraph. -/
theorem spec_C4_witness :
    adjustParagraph (lengthThreshold exText) (windowSize exText) exP3
      = some ((specWindows (windowSize exText) (pysplit exP3)).map joinWords) :=
  (spec_C4_long_windows exText exP3 (by decide)
    (by rw [lengthThreshold_exText, wordCount_exP3]; norm_num)).1

/-- C5: whenever Step A yields at least one paragraph, the Segmenter
returns an output at least as long as the paragraph list: re-chunking only
subdivides, it never merges or drops paragraphs. -/
theorem spec_C5_no_merge (text : List Char) (h : stepA text ≠ []) :
    ∃ out, split_into_paragraphs text = some out ∧ (stepA text).length ≤ out.length := by
  obtain ⟨out, hout⟩ := Option.isSome_iff_exists.mp (split_into_paragraphs_isSome text)
  refine ⟨out, hout, ?_⟩
  unfold split_into_paragraphs at hout
  exact adjustLoop_length (lengthThreshold_nonneg text) _ out hout

/-- Witness for C5 at the worked example. -/
theorem spec_C5_witness :
    ∃ out, split_into_paragraphs exText = some out ∧ (stepA exText).length ≤ out.length :=
  spec_C5_no_merge exText (by decide)

/-- C6: the threshold is exactly 20% above the mean word count —
`avg_words + (avg_words * 20)/100 = avg_words * 1.20` in exact rational
arithmetic — with `avg_words = 0` when there are no paragraphs and
`avg_words * count = total` otherwise. -/
theorem spec_C6_threshold (text : List Char) :
    lengthThreshold text = avgWords text * (1.20 : ℚ)
    ∧ ((stepA text).length = 0 → avgWords text = 0)
    ∧ (0 < (stepA text).length →
        avgWords text * ((stepA text).length : ℚ) = (totalWords text : ℚ)) := by
  refine ⟨?_, ?_, ?_⟩
  · unfold lengthThreshold
    have h : (1.20 : ℚ) = 6 / 5 := by norm_num
    rw [h]
    ring
  · intro h
    unfold avgWords
    rw [if_neg (by omega)]
  · intro h
    unfold avgWords
    rw [if_pos h]
    exact div_mul_cancel₀ _ (Nat.cast_ne_zero.mpr (by omega))

/-- Witness for C6 at the worked example. -/
theorem spec_C6_witness :
    lengthThreshold exText = avgWords exText * (1.20 : ℚ)
    ∧ avgWords exText * ((stepA exText).length : ℚ) = (totalWords exText : ℚ) :=
  ⟨(spec_C6_threshold exText).1, (spec_C6_threshold exText).2.2 (by decide)⟩

/-- C7: for every chunk sequence and every service behaviour the
Classifier returns one label per chunk, order-aligned; the label at each
position is determined by that position's service call alone (a failure
yields the sentinel for that chunk only), and when every call fails every
label is the sentinel. -/
theorem spec_C7_classifier (svc : Nat → List Char → Option (List Char))
    (i : Nat) (ps : List (List Char)) :
    (classify_paragraphs svc i ps).length = ps.length
    ∧ (∀ (j : Nat) (hj : j < ps.length) (hj2 : j < (classify_paragraphs svc i ps).length),
        (classify_paragraphs svc i ps).get ⟨j, hj2⟩ = labelOf (svc (i + j) (ps.get ⟨j, hj⟩)))
    ∧ ((∀ n p, svc n p = none) → ∀ lab ∈ classify_paragraphs svc i ps, lab = errorLabel) :=
  ⟨classify_paragraphs_length svc ps i,
   fun j hj hj2 => classify_paragraphs_get svc ps i j hj hj2,
   fun hsvc => classify_paragraphs_all_error svc hsvc ps i⟩

/-- Witness for C7: a two-chunk run whose first call succeeds. -/
theorem spec_C7_witness :
    (classify_paragraphs svcOne 0 psTwo).length = psTwo.length
    ∧ (classify_paragraphs svcOne 0 psTwo).get ⟨0, by decide⟩
        = labelOf (svcOne (0 + 0) (psTwo.get ⟨0, by decide⟩))
    ∧ (classify_paragraphs svcOne 0 psTwo).get ⟨1, by decide⟩
        = labelOf (svcOne (0 + 1) (psTwo.get ⟨1, by decide⟩)) :=
  ⟨(spec_C7_classifier svcOne 0 psTwo).1,
   (spec_C7_classifier svcOne 0 psTwo).2.1 0 (by decide) (by decide),
   (spec_C7_classifier svcOne 0 psTwo).2.1 1 (by decide) (by decide)⟩

/-- C8: a run whose extraction succeeds but yields zero paragraphs exits
cleanly with the logged notice: no output file, no classification call (the
outcome is the same for every service oracle), no exception, exit code 0. -/
theorem spec_C8_empty_input (env : Env) (text : List Char)
    (hx : env.extracted = some text) (h0 : stepA text = []) :
    main env = RunResult.emptyInput ∧ pyExitCode (main env) = some 0 := by
  have hsplit : split_into_paragraphs text = some [] := by
    unfold split_into_paragraphs
    rw [h0]
    rfl
  obtain ⟨ext, svc, wOk⟩ := env
  have hx' : ext = some text := hx
  subst hx'
  refine ⟨?_, ?_⟩ <;> simp [main, hsplit, pyExitCode]

/-- Witness for C8 on whitespace-only extracted text. -/
theorem spec_C8_witness :
    main envBlank = RunResult.emptyInput ∧ pyExitCode (main envBlank) = some 0 :=
  spec_C8_empty_input envBlank ((" \n \n  ").toList) rfl (by decide)

/-- C9 counterexample: when extraction fails, the code prints a diagnostic
and returns from `main` normally, so the process exit status is 0 — the
claim's required non-zero exit status does not hold. -/
theorem spec_C9_counterexample :
    main envFail = RunResult.extractionFailure ∧ pyExitCode (main envFail) = some 0 :=
  ⟨rfl, rfl⟩

/-- C9 (amended): fatal errors abort the run with a diagnostic message and
no further processing, but via a normal early return (process exit status
0, not non-zero): extraction failure stops the run before any output is
produced, and a Sink write failure is reported after classification with
no retry. -/
theorem spec_C9_fatal_aborts (env : Env) :
    pyExitCode (main env) = some 0
    ∧ (env.extracted = none → main env = RunResult.extractionFailure)
    ∧ (∀ text, env.extracted = some text → env.writeOk = false → stepA text ≠ [] →
        ∃ rows, main env = RunResult.writeFailed rows) := by
  refine ⟨main_exit_zero env, ?_, ?_⟩
  · intro h
    obtain ⟨ext, svc, wOk⟩ := env
    have h' : ext = none := h
    subst h'
    rfl
  · intro text hx hw hne
    obtain ⟨ext, svc, wOk⟩ := env
    have hx' : ext = some text := hx
    subst hx'
    have hw' : wOk = false := hw
    subst hw'
    obtain ⟨out, hout⟩ := Option.isSome_iff_exists.mp (split_into_paragraphs_isSome text)
    have hout' := hout
    unfold split_into_paragraphs at hout'
    have hlenout : 1 ≤ out.length := by
      have h1 := adjustLoop_length (lengthThreshold_nonneg text) _ out hout'
      have hpos : 0 < (stepA text).length := List.length_pos.mpr hne
      omega
    have hemp : out.isEmpty = false := by
      cases out with
      | nil => simp at hlenout
      | cons a t => rfl
    have hlen := classify_paragraphs_length svc out 0
    refine ⟨out.zip (classify_paragraphs svc 0 out), ?_⟩
    simp only [main, hout]
    rw [if_neg (by rw [hemp]; simp)]
    rw [if_neg (by omega)]
    rw [if_neg (by simp)]

/-- Witness for C9 (amended): extraction succeeds on the example but the
CSV write fails. -/
theorem spec_C9_witness :
    pyExitCode (main envNoWrite) = some 0
    ∧ ∃ rows, main envNoWrite = RunResult.writeFailed rows :=
  ⟨(spec_C9_fatal_aborts envNoWrite).1,
   (spec_C9_fatal_aborts envNoWrite).2.2 exText rfl rfl (by decide)⟩

/-- C10: the Segmenter terminates on every input: every Step A paragraph
has at least one word, so when any paragraph exists the average is at
least 1 and the truncated window size is at least 1, making the zero-step
infinite loop unreachable. -/
theorem spec_C10_terminates (text : List Char) :
    (∃ out, split_into_paragraphs text = some out)
    ∧ (∀ p ∈ stepA text, 1 ≤ wordCount p)
    ∧ (stepA text ≠ [] → 1 ≤ avgWords text ∧ 1 ≤ windowSize text) :=
  ⟨Option.isSome_iff_exists.mp (split_into_paragraphs_isSome text),
   fun _ hp => stepA_wordCount_pos hp,
   fun h => ⟨one_le_avgWords h, one_le_windowSize h⟩⟩

/-- Witness for C10 at the worked example. -/
theorem spec_C10_witness :
    (∃ out, split_into_paragraphs exText = some out)
    ∧ 1 ≤ wordCount exP1
    ∧ 1 ≤ avgWords exText ∧ 1 ≤ windowSize exText :=
  ⟨(spec_C10_terminates exText).1,
   (spec_C10_terminates exText).2.1 exP1 (by decide),
   (spec_C10_terminates exText).2.2 (by decide)⟩

end CaseAssignment
